import Mathlib

/-
Shallow embedding of rslib/src/scheduler/fsrs/retention.rs.

Floating point (f64) arithmetic is modelled by exact rational arithmetic
(ℚ); all divisions in the source are plain divisions of small integers, so
the rational value is the ideal value the floats approximate.
u32 durations and ids are modelled by Nat.  Runtime array indexing
`arr[i]` with a computed index (which panics in Rust when out of bounds)
is modelled by an Option-valued checked write; constant-index reads on the
fixed-size arrays ([f64; 4], [f64; 3]) cannot go out of bounds in Rust and
are modelled by total structure projections.
-/

namespace Anki

/-- The five revlog review kinds, in the declaration order of the Rust enum
RevlogReviewKind (Learning = 0, Review = 1, Relearning = 2, Filtered = 3,
Manual = 4). -/
inductive RevlogReviewKind where
  | Learning
  | Review
  | Relearning
  | Filtered
  | Manual
deriving DecidableEq, Repr

/-- A revlog entry, keeping the source field names: cid is the card id,
id the entry id (unique within a card, monotonically assigned),
button_chosen the rating 0..=4, taken_millis the answer duration. -/
structure RevlogEntry where
  cid : Nat
  id : Nat
  review_kind : RevlogReviewKind
  button_chosen : Nat
  taken_millis : Nat
deriving DecidableEq, Repr

/-- The error outcomes of the embedded functions.  IndexOutOfBounds models
a Rust panic from a computed array index; the others model AnkiError
variants used by retention.rs. -/
inductive AnkiError where
  | InvalidInput
  | FsrsInsufficientData
  | IndexOutOfBounds
  | EngineFailure
deriving DecidableEq, Repr

instance {ε α : Type} [DecidableEq ε] [DecidableEq α] : DecidableEq (Except ε α) := fun x y =>
  match x, y with
  | .error a, .error b =>
    if h : a = b then isTrue (by rw [h]) else isFalse (fun hc => h (Except.error.inj hc))
  | .error _, .ok _ => isFalse (fun hc => Except.noConfusion hc)
  | .ok _, .error _ => isFalse (fun hc => Except.noConfusion hc)
  | .ok a, .ok b =>
    if h : a = b then isTrue (by rw [h]) else isFalse (fun hc => h (Except.ok.inj hc))

/-- A [f64; 4] array of the source. -/
structure Arr4 where
  a0 : ℚ
  a1 : ℚ
  a2 : ℚ
  a3 : ℚ
deriving DecidableEq, Repr

/-- A [f64; 3] array of the source. -/
structure Arr3 where
  b0 : ℚ
  b1 : ℚ
  b2 : ℚ
deriving DecidableEq, Repr

/-- Checked write `arr[i] = v` on a [f64; 4]: the Rust index expression is
a usize obtained from `button as usize - k`, modelled as an integer so that
a negative value (usize underflow in Rust) is out of bounds. -/
def Arr4.setInt (a : Arr4) (i : Int) (v : ℚ) : Option Arr4 :=
  if i = 0 then some { a with a0 := v }
  else if i = 1 then some { a with a1 := v }
  else if i = 2 then some { a with a2 := v }
  else if i = 3 then some { a with a3 := v }
  else none

/-- Checked read of a [f64; 4] at an integer index. -/
def Arr4.getInt (a : Arr4) (i : Int) : Option ℚ :=
  if i = 0 then some a.a0
  else if i = 1 then some a.a1
  else if i = 2 then some a.a2
  else if i = 3 then some a.a3
  else none

/-- Sum of the four entries. -/
def Arr4.sum (a : Arr4) : ℚ := a.a0 + a.a1 + a.a2 + a.a3

/-- Checked write `arr[i] = v` on a [f64; 3]. -/
def Arr3.setInt (a : Arr3) (i : Int) (v : ℚ) : Option Arr3 :=
  if i = 0 then some { a with b0 := v }
  else if i = 1 then some { a with b1 := v }
  else if i = 2 then some { a with b2 := v }
  else none

/-- Checked read of a [f64; 3] at an integer index. -/
def Arr3.getInt (a : Arr3) (i : Int) : Option ℚ :=
  if i = 0 then some a.b0
  else if i = 1 then some a.b1
  else if i = 2 then some a.b2
  else none

/-- Sum of the three entries. -/
def Arr3.sum (a : Arr3) : ℚ := a.b0 + a.b1 + a.b2

/-- Perform a sequence of checked writes on a [f64; 4]; the first
out-of-bounds write aborts (models a Rust panic). -/
def writeAll4 (a : Arr4) : List (Int × ℚ) → Option Arr4
  | [] => some a
  | e :: es =>
    match a.setInt e.1 e.2 with
    | some a1 => writeAll4 a1 es
    | none => none

/-- Perform a sequence of checked writes on a [f64; 3]. -/
def writeAll3 (a : Arr3) : List (Int × ℚ) → Option Arr3
  | [] => some a
  | e :: es =>
    match a.setInt e.1 e.2 with
    | some a1 => writeAll3 a1 es
    | none => none

/-- Number of occurrences of k in a list of naturals (the count one key
receives in itertools counts_by). -/
def cnt (k : Nat) (m : List Nat) : Nat := (m.filter (fun x => x == k)).length

/-- One step of grouping a list into maximal runs of adjacent elements
related by same (the semantics of itertools group_by). -/
def runStep {α : Type} (same : α → α → Bool) (x : α) (acc : List (List α)) : List (List α) :=
  match acc with
  | [] => [[x]]
  | [] :: gs => [x] :: gs
  | (y :: g) :: gs => if same x y then (x :: y :: g) :: gs else [x] :: (y :: g) :: gs

/-- Group a list into maximal runs of adjacent elements related by same:
the semantics of itertools group_by, which emits a new group each time the
key of the next element differs from the key of the current one. -/
def runsBy {α : Type} (same : α → α → Bool) (l : List α) : List (List α) :=
  l.foldr (runStep same) []

/-- The graduation filter of the source:
review_kind == Learning && button_chosen >= 1. -/
def isGraduation (r : RevlogEntry) : Bool :=
  r.review_kind == RevlogReviewKind.Learning && decide (1 ≤ r.button_chosen)

/-- The review filter of the second pass:
review_kind == Review && button_chosen != 1. -/
def isNonAgainReview (r : RevlogEntry) : Bool :=
  r.review_kind == RevlogReviewKind.Review && r.button_chosen != 1

/-- The review filter of the recall-cost pass:
review_kind == Review && button_chosen > 0. -/
def isRatedReview (r : RevlogEntry) : Bool :=
  r.review_kind == RevlogReviewKind.Review && decide (0 < r.button_chosen)

/-- The ratings of a list of entries (button_chosen projection). -/
def buttons (l : List RevlogEntry) : List Nat := l.map (fun r => r.button_chosen)

/-- First pass, selection step: group the revlogs by cid (itertools
group_by on cid) and keep, for each group that has one, the first entry
with review_kind Learning and button_chosen >= 1. -/
def firstRatingEvents (revlogs : List RevlogEntry) : List RevlogEntry :=
  (runsBy (fun a b => a.cid == b.cid) revlogs).filterMap
    (fun g => g.find? isGraduation)

/-- First pass of get_optimal_retention_parameters: the first-rating
probability array.  counts_by yields one (rating, count) pair per distinct
rating value, written at index rating - 1 with value count / total_first;
the iteration order of the hash map is immaterial because each distinct
rating targets a distinct slot. -/
def firstRatingProbPass (revlogs : List RevlogEntry) : Except AnkiError Arr4 :=
  let firsts := firstRatingEvents revlogs
  let total_first := firsts.length
  if 0 < total_first then
    let entries := ((buttons firsts).dedup).map
      (fun (k : Nat) => ((k : Int) - 1, (cnt k (buttons firsts) : ℚ) / (total_first : ℚ)))
    match writeAll4 ⟨0, 0, 0, 0⟩ entries with
    | some arr => .ok arr
    | none => .error .IndexOutOfBounds
  else .error .FsrsInsufficientData

/-- Second pass: the review-rating probability array.  The denominator
total_reviews counts every Review entry with rating != 1 (rating 0
included); only ratings >= 2 are written, at index rating - 2. -/
def reviewRatingProbPass (revlogs : List RevlogEntry) : Except AnkiError Arr3 :=
  let reviews := revlogs.filter isNonAgainReview
  let total_reviews := reviews.length
  if 0 < total_reviews then
    let entries := (((buttons reviews).dedup).filter (fun k => decide (2 ≤ k))).map
      (fun (k : Nat) => ((k : Int) - 2, (cnt k (buttons reviews) : ℚ) / (total_reviews : ℚ)))
    match writeAll3 ⟨0, 0, 0⟩ entries with
    | some arr => .ok arr
    | none => .error .IndexOutOfBounds
  else .error .FsrsInsufficientData

/-- Average duration of a group in seconds:
sum(taken_millis) / len / 1000. -/
def avgSecs (group : List RevlogEntry) : ℚ :=
  ((group.map (fun r => r.taken_millis)).sum : ℚ) / (group.length : ℚ) / 1000

/-- The literal default recall-cost array of the source. -/
def recallCostsDefault : Arr4 := ⟨14, 14, 10, 6⟩

/-- Third pass: recall costs.  The source sorts the rated Review entries by
button_chosen and groups them with group_by, which after sorting is exactly
grouping by rating value; each distinct rating writes the average duration
of its group at index rating - 1 over the seeded default array.  If the
array is still equal to the default afterwards the pass fails. -/
def recallCostsPass (revlogs : List RevlogEntry) : Except AnkiError Arr4 :=
  let rated := revlogs.filter isRatedReview
  let entries := ((buttons rated).dedup).map
    (fun (k : Nat) => ((k : Int) - 1, avgSecs (rated.filter (fun r => r.button_chosen == k))))
  match writeAll4 recallCostsDefault entries with
  | some arr =>
    if arr = recallCostsDefault then .error .FsrsInsufficientData else .ok arr
  | none => .error .IndexOutOfBounds

/-- Fourth pass: learn cost.  The numerator sums the durations of every
Learning entry with rating >= 1 (not only the per-card first one); the
denominator is total_first from the first pass. -/
def learnCostPass (revlogs : List RevlogEntry) : Except AnkiError ℚ :=
  let total_first := (firstRatingEvents revlogs).length
  let s := ((revlogs.filter isGraduation).map (fun r => r.taken_millis)).sum
  if 0 < total_first then .ok ((s : ℚ) / (total_first : ℚ) / 1000)
  else .error .FsrsInsufficientData

/-- The comparison used by the fifth pass:
a.cid.cmp(&b.cid).then(a.id.cmp(&b.id)) as a total boolean order. -/
def leCidId (a b : RevlogEntry) : Bool :=
  decide (a.cid < b.cid) || (a.cid == b.cid && decide (a.id ≤ b.id))

/-- Stable insertion into a sorted list (helper for sortByCidId). -/
def insertCidId (x : RevlogEntry) : List RevlogEntry → List RevlogEntry
  | [] => [x]
  | y :: ys => if leCidId x y then x :: y :: ys else y :: insertCidId x ys

/-- Stable sort by (cid, id), modelling itertools sorted_by. -/
def sortByCidId : List RevlogEntry → List RevlogEntry
  | [] => []
  | x :: xs => insertCidId x (sortByCidId xs)

/-- Fifth pass, grouping step: sort by (cid, id), group into maximal runs
of equal review_kind (a run breaks whenever the phase changes between
adjacent entries, even across card boundaries), and record each run's
review_kind together with the sum of its durations. -/
def phaseRuns (revlogs : List RevlogEntry) : List (RevlogReviewKind × Nat) :=
  (runsBy (fun a b => a.review_kind == b.review_kind) (sortByCidId revlogs)).filterMap
    (fun g => g.head?.map (fun h => (h.review_kind, (g.map (fun r => r.taken_millis)).sum)))

/-- Fifth pass, averaging step: the bucket of a review kind collects the
per-run duration sums of that kind; its average in seconds, with an empty
bucket yielding 0 (the source maps the NaN from 0/0 to 0.0). -/
def bucketAvg (revlogs : List RevlogEntry) (k : RevlogReviewKind) : ℚ :=
  let sums := ((phaseRuns revlogs).filter (fun rk => rk.1 == k)).map (fun rk => rk.2)
  if sums.length = 0 then 0 else (sums.sum : ℚ) / (sums.length : ℚ) / 1000

/-- The OptimalRetentionParameters message, field names as in the source. -/
structure OptimalRetentionParameters where
  recall_secs_hard : ℚ
  recall_secs_good : ℚ
  recall_secs_easy : ℚ
  forget_secs : ℚ
  learn_secs : ℚ
  first_rating_probability_again : ℚ
  first_rating_probability_hard : ℚ
  first_rating_probability_good : ℚ
  first_rating_probability_easy : ℚ
  review_rating_probability_hard : ℚ
  review_rating_probability_good : ℚ
  review_rating_probability_easy : ℚ
deriving DecidableEq, Repr

/-- get_optimal_retention_parameters of the source, over the revlog list
the storage query returns (ordered by card, then id).  The passes run in
source order and the first failing pass aborts the whole computation;
forget_secs adds the Relearning bucket average to recall_costs[0]. -/
def get_optimal_retention_parameters (revlogs : List RevlogEntry) :
    Except AnkiError OptimalRetentionParameters :=
  match firstRatingProbPass revlogs with
  | .error e => .error e
  | .ok first_rating_prob =>
    match reviewRatingProbPass revlogs with
    | .error e => .error e
    | .ok review_rating_prob =>
      match recallCostsPass revlogs with
      | .error e => .error e
      | .ok recall_costs =>
        match learnCostPass revlogs with
        | .error e => .error e
        | .ok learn_cost =>
          .ok {
            recall_secs_hard := recall_costs.a1
            recall_secs_good := recall_costs.a2
            recall_secs_easy := recall_costs.a3
            forget_secs := bucketAvg revlogs RevlogReviewKind.Relearning + recall_costs.a0
            learn_secs := learn_cost
            first_rating_probability_again := first_rating_prob.a0
            first_rating_probability_hard := first_rating_prob.a1
            first_rating_probability_good := first_rating_prob.a2
            first_rating_probability_easy := first_rating_prob.a3
            review_rating_probability_hard := review_rating_prob.b0
            review_rating_probability_good := review_rating_prob.b1
            review_rating_probability_easy := review_rating_prob.b2 }

/-- The ComputeOptimalRetentionRequest message, field names as in the
source proto. -/
structure ComputeOptimalRetentionRequest where
  deck_size : Nat
  days_to_simulate : Nat
  max_minutes_of_study_per_day : Nat
  max_interval : Nat
  loss_aversion : ℚ
  weights : List ℚ
  search : String

/-- The fsrs SimulatorConfig, field names as in the source. -/
structure SimulatorConfig where
  deck_size : Nat
  learn_span : Nat
  max_cost_perday : ℚ
  max_ivl : ℚ
  recall_costs : List ℚ
  forget_cost : ℚ
  learn_cost : ℚ
  first_rating_prob : List ℚ
  review_rating_prob : List ℚ
  loss_aversion : ℚ

/-- Construction of the SimulatorConfig from the request and the estimated
parameters, exactly as in compute_optimal_retention: minutes converted to
seconds, recall costs from the Hard/Good/Easy slots (Again is absorbed
into forget_cost), probabilities copied verbatim. -/
def buildSimulatorConfig (req : ComputeOptimalRetentionRequest)
    (p : OptimalRetentionParameters) : SimulatorConfig :=
  { deck_size := req.deck_size
    learn_span := req.days_to_simulate
    max_cost_perday := (req.max_minutes_of_study_per_day : ℚ) * 60
    max_ivl := (req.max_interval : ℚ)
    recall_costs := [p.recall_secs_hard, p.recall_secs_good, p.recall_secs_easy]
    forget_cost := p.forget_secs
    learn_cost := p.learn_secs
    first_rating_prob := [p.first_rating_probability_again, p.first_rating_probability_hard,
      p.first_rating_probability_good, p.first_rating_probability_easy]
    review_rating_prob := [p.review_rating_probability_hard, p.review_rating_probability_good,
      p.review_rating_probability_easy]
    loss_aversion := req.loss_aversion }

/-- The external collaborators of compute_optimal_retention: the storage
search (returning revlogs in card order) and the fsrs engine's
optimal_retention (the progress callback is out of scope of this
embedding). -/
structure Oracles where
  searchRevlogs : String → List RevlogEntry
  optimalRetention : SimulatorConfig → List ℚ → Except AnkiError ℚ

/-- Instrumentation of the collaborator invocations performed by one call
of compute_optimal_retention. -/
structure CallCounts where
  estimatorRuns : Nat
  engineCalls : Nat
deriving DecidableEq, Repr

/-- compute_optimal_retention of the source: reject a zero horizon with
InvalidInput before touching storage or engine, estimate the parameters,
run the engine on the built config, and clamp its result with
.max(0.75).min(0.95).  The second component records how many times the
estimator and the engine were invoked. -/
def compute_optimal_retention (o : Oracles) (req : ComputeOptimalRetentionRequest) :
    Except AnkiError ℚ × CallCounts :=
  if req.days_to_simulate = 0 then
    (.error .InvalidInput, ⟨0, 0⟩)
  else
    match get_optimal_retention_parameters (o.searchRevlogs req.search) with
    | .error e => (.error e, ⟨1, 0⟩)
    | .ok p =>
      match o.optimalRetention (buildSimulatorConfig req p) req.weights with
      | .error e => (.error e, ⟨1, 1⟩)
      | .ok r => (.ok (min (max r (0.75 : ℚ)) (0.95 : ℚ)), ⟨1, 1⟩)

theorem runStep_join {α : Type} (same : α → α → Bool) (x : α) (acc : List (List α)) :
    (runStep same x acc).flatten = x :: acc.flatten := by
  match acc with
  | [] => rfl
  | [] :: gs => simp [runStep]
  | (y :: g) :: gs =>
    simp only [runStep]
    split <;> simp

theorem runsBy_join {α : Type} (same : α → α → Bool) (l : List α) :
    (runsBy same l).flatten = l := by
  induction l with
  | nil => rfl
  | cons x xs ih =>
    show (runStep same x (runsBy same xs)).flatten = x :: xs
    rw [runStep_join, ih]

theorem mem_of_mem_runsBy {α : Type} {same : α → α → Bool} {l : List α} {g : List α}
    (hg : g ∈ runsBy same l) {x : α} (hx : x ∈ g) : x ∈ l := by
  rw [← runsBy_join same l, List.mem_flatten]
  exact ⟨g, hg, hx⟩

theorem exists_mem_runsBy {α : Type} (same : α → α → Bool) {l : List α} {x : α}
    (hx : x ∈ l) : ∃ g ∈ runsBy same l, x ∈ g := by
  rw [← runsBy_join same l, List.mem_flatten] at hx
  exact hx

theorem cnt_nil (k : Nat) : cnt k [] = 0 := rfl

theorem cnt_cons (k x : Nat) (m : List Nat) :
    cnt k (x :: m) = (if x = k then 1 else 0) + cnt k m := by
  simp only [cnt, List.filter_cons]
  by_cases h : x = k
  · simp [h]
    omega
  · simp [h]

theorem cnt_eq_zero_of_not_mem {k : Nat} {m : List Nat} (h : k ∉ m) : cnt k m = 0 := by
  induction m with
  | nil => rfl
  | cons x xs ih =>
    have hxk : x ≠ k := fun he => h (he ▸ List.mem_cons_self x xs)
    have hx : k ∉ xs := fun hm => h (List.mem_cons_of_mem x hm)
    rw [cnt_cons]
    simp [hxk, ih hx]

theorem cnt_sum_one_four {m : List Nat} (h : ∀ x ∈ m, 1 ≤ x ∧ x ≤ 4) :
    cnt 1 m + cnt 2 m + cnt 3 m + cnt 4 m = m.length := by
  induction m with
  | nil => simp [cnt_nil]
  | cons x xs ih =>
    have hx := h x (List.mem_cons_self x xs)
    have ihh := ih (fun y hy => h y (List.mem_cons_of_mem x hy))
    rw [cnt_cons, cnt_cons, cnt_cons, cnt_cons, List.length_cons]
    have hcase : x = 1 ∨ x = 2 ∨ x = 3 ∨ x = 4 := by omega
    rcases hcase with h1 | h1 | h1 | h1 <;> subst h1 <;> simp <;> omega

theorem cnt_sum_two_four {m : List Nat} (h : ∀ x ∈ m, 2 ≤ x ∧ x ≤ 4) :
    cnt 2 m + cnt 3 m + cnt 4 m = m.length := by
  induction m with
  | nil => simp [cnt_nil]
  | cons x xs ih =>
    have hx := h x (List.mem_cons_self x xs)
    have ihh := ih (fun y hy => h y (List.mem_cons_of_mem x hy))
    rw [cnt_cons, cnt_cons, cnt_cons, List.length_cons]
    have hcase : x = 2 ∨ x = 3 ∨ x = 4 := by omega
    rcases hcase with h1 | h1 | h1 <;> subst h1 <;> simp <;> omega

theorem Arr4.getInt_setInt_ne {a a1 : Arr4} {i : Int} {v : ℚ}
    (h : a.setInt i v = some a1) {j : Int} (hij : j ≠ i) :
    a1.getInt j = a.getInt j := by
  unfold Arr4.setInt at h
  split_ifs at h with h0 h1 h2 h3 <;>
    (injection h with he; subst he; unfold Arr4.getInt; split_ifs <;> simp_all)

theorem Arr4.getInt_setInt_self {a a1 : Arr4} {i : Int} {v : ℚ}
    (h : a.setInt i v = some a1) : a1.getInt i = some v := by
  unfold Arr4.setInt at h
  split_ifs at h with h0 h1 h2 h3 <;>
    (injection h with he; subst he; unfold Arr4.getInt; split_ifs <;> simp_all)

theorem Arr4.setInt_isSome (a : Arr4) {i : Int} (h0 : 0 ≤ i) (h4 : i < 4) (v : ℚ) :
    ∃ a1, a.setInt i v = some a1 := by
  unfold Arr4.setInt
  split_ifs <;> first | exact ⟨_, rfl⟩ | omega

theorem writeAll4_some (a : Arr4) {es : List (Int × ℚ)}
    (h : ∀ e ∈ es, 0 ≤ e.1 ∧ e.1 < 4) : ∃ a1, writeAll4 a es = some a1 := by
  induction es generalizing a with
  | nil => exact ⟨a, rfl⟩
  | cons e es ih =>
    obtain ⟨he1, he2⟩ := h e (List.mem_cons_self e es)
    obtain ⟨b, hb⟩ := Arr4.setInt_isSome a he1 he2 e.2
    obtain ⟨a1, ha1⟩ := ih b (fun x hx => h x (List.mem_cons_of_mem e hx))
    exact ⟨a1, by simp [writeAll4, hb, ha1]⟩

theorem writeAll4_getInt_not_mem {a a1 : Arr4} {es : List (Int × ℚ)}
    (h : writeAll4 a es = some a1) {j : Int} (hj : ∀ e ∈ es, e.1 ≠ j) :
    a1.getInt j = a.getInt j := by
  induction es generalizing a with
  | nil =>
    injection h with he
    rw [he]
  | cons e es ih =>
    unfold writeAll4 at h
    cases hs : a.setInt e.1 e.2 with
    | none => rw [hs] at h; exact absurd h (by simp)
    | some b =>
      rw [hs] at h
      have htail := ih h (fun x hx => hj x (List.mem_cons_of_mem e hx))
      rw [htail]
      exact Arr4.getInt_setInt_ne hs (Ne.symm (hj e (List.mem_cons_self e es)))

theorem writeAll4_getInt_mem {a a1 : Arr4} {es : List (Int × ℚ)}
    (h : writeAll4 a es = some a1) (hnd : (es.map Prod.fst).Nodup) {i : Int} {v : ℚ}
    (hmem : (i, v) ∈ es) : a1.getInt i = some v := by
  induction es generalizing a with
  | nil => cases hmem
  | cons e es ih =>
    unfold writeAll4 at h
    cases hs : a.setInt e.1 e.2 with
    | none => rw [hs] at h; exact absurd h (by simp)
    | some b =>
      rw [hs] at h
      rcases List.mem_cons.mp hmem with he | he
      · have hi1 : e.1 = i := by rw [← he]
        have hi2 : e.2 = v := by rw [← he]
        have hnotail : ∀ x ∈ es, x.1 ≠ i := by
          intro x hx hxi
          have : e.1 ∈ es.map Prod.fst := by
            rw [hi1, ← hxi]
            exact List.mem_map_of_mem Prod.fst hx
          exact (List.nodup_cons.mp hnd).1 this
        rw [writeAll4_getInt_not_mem h hnotail]
        rw [hi1, hi2] at hs
        exact Arr4.getInt_setInt_self hs
      · exact ih h (List.nodup_cons.mp hnd).2 he

theorem Arr3.getInt_setInt_ne_b {a a1 : Arr3} {i : Int} {v : ℚ}
    (h : a.setInt i v = some a1) {j : Int} (hij : j ≠ i) :
    a1.getInt j = a.getInt j := by
  unfold Arr3.setInt at h
  split_ifs at h with h0 h1 h2 <;>
    (injection h with he; subst he; unfold Arr3.getInt; split_ifs <;> simp_all)

theorem Arr3.getInt_setInt_self_b {a a1 : Arr3} {i : Int} {v : ℚ}
    (h : a.setInt i v = some a1) : a1.getInt i = some v := by
  unfold Arr3.setInt at h
  split_ifs at h with h0 h1 h2 <;>
    (injection h with he; subst he; unfold Arr3.getInt; split_ifs <;> simp_all)

theorem Arr3.setInt_isSome_b (a : Arr3) {i : Int} (h0 : 0 ≤ i) (h3 : i < 3) (v : ℚ) :
    ∃ a1, a.setInt i v = some a1 := by
  unfold Arr3.setInt
  split_ifs <;> first | exact ⟨_, rfl⟩ | omega

theorem writeAll3_some (a : Arr3) {es : List (Int × ℚ)}
    (h : ∀ e ∈ es, 0 ≤ e.1 ∧ e.1 < 3) : ∃ a1, writeAll3 a es = some a1 := by
  induction es generalizing a with
  | nil => exact ⟨a, rfl⟩
  | cons e es ih =>
    obtain ⟨he1, he2⟩ := h e (List.mem_cons_self e es)
    obtain ⟨b, hb⟩ := Arr3.setInt_isSome_b a he1 he2 e.2
    obtain ⟨a1, ha1⟩ := ih b (fun x hx => h x (List.mem_cons_of_mem e hx))
    exact ⟨a1, by simp [writeAll3, hb, ha1]⟩

theorem writeAll3_getInt_not_mem {a a1 : Arr3} {es : List (Int × ℚ)}
    (h : writeAll3 a es = some a1) {j : Int} (hj : ∀ e ∈ es, e.1 ≠ j) :
    a1.getInt j = a.getInt j := by
  induction es generalizing a with
  | nil =>
    injection h with he
    rw [he]
  | cons e es ih =>
    unfold writeAll3 at h
    cases hs : a.setInt e.1 e.2 with
    | none => rw [hs] at h; exact absurd h (by simp)
    | some b =>
      rw [hs] at h
      have htail := ih h (fun x hx => hj x (List.mem_cons_of_mem e hx))
      rw [htail]
      exact Arr3.getInt_setInt_ne_b hs (Ne.symm (hj e (List.mem_cons_self e es)))

theorem writeAll3_getInt_mem {a a1 : Arr3} {es : List (Int × ℚ)}
    (h : writeAll3 a es = some a1) (hnd : (es.map Prod.fst).Nodup) {i : Int} {v : ℚ}
    (hmem : (i, v) ∈ es) : a1.getInt i = some v := by
  induction es generalizing a with
  | nil => cases hmem
  | cons e es ih =>
    unfold writeAll3 at h
    cases hs : a.setInt e.1 e.2 with
    | none => rw [hs] at h; exact absurd h (by simp)
    | some b =>
      rw [hs] at h
      rcases List.mem_cons.mp hmem with he | he
      · have hi1 : e.1 = i := by rw [← he]
        have hi2 : e.2 = v := by rw [← he]
        have hnotail : ∀ x ∈ es, x.1 ≠ i := by
          intro x hx hxi
          have : e.1 ∈ es.map Prod.fst := by
            rw [hi1, ← hxi]
            exact List.mem_map_of_mem Prod.fst hx
          exact (List.nodup_cons.mp hnd).1 this
        rw [writeAll3_getInt_not_mem h hnotail]
        rw [hi1, hi2] at hs
        exact Arr3.getInt_setInt_self_b hs
      · exact ih h (List.nodup_cons.mp hnd).2 he

theorem firstRatingEvents_mem {revlogs : List RevlogEntry} {e : RevlogEntry}
    (h : e ∈ firstRatingEvents revlogs) : e ∈ revlogs ∧ isGraduation e = true := by
  obtain ⟨g, hg, hfind⟩ := List.mem_filterMap.mp h
  exact ⟨mem_of_mem_runsBy hg (List.mem_of_find?_eq_some hfind), List.find?_some hfind⟩

theorem firstRatingEvents_length_pos {revlogs : List RevlogEntry} {e : RevlogEntry}
    (he : e ∈ revlogs) (hge : isGraduation e = true) :
    0 < (firstRatingEvents revlogs).length := by
  obtain ⟨g, hg, heg⟩ := exists_mem_runsBy (fun a b => a.cid == b.cid) he
  cases hfind : g.find? isGraduation with
  | none => exact absurd hge (List.find?_eq_none.mp hfind e heg)
  | some v =>
    have hv : v ∈ firstRatingEvents revlogs :=
      List.mem_filterMap.mpr ⟨g, hg, hfind⟩
    exact List.length_pos.mpr (List.ne_nil_of_mem hv)

theorem firstButtons_bounds {revlogs : List RevlogEntry}
    (hinv : ∀ r ∈ revlogs, r.button_chosen ≤ 4) :
    ∀ x ∈ buttons (firstRatingEvents revlogs), 1 ≤ x ∧ x ≤ 4 := by
  intro x hx
  obtain ⟨r, hr, hrx⟩ := List.mem_map.mp hx
  obtain ⟨hrl, hrg⟩ := firstRatingEvents_mem hr
  simp only [isGraduation, Bool.and_eq_true, decide_eq_true_eq] at hrg
  exact ⟨hrx ▸ hrg.2, hrx ▸ hinv r hrl⟩

theorem firstRatingProbPass_ok {revlogs : List RevlogEntry}
    (hinv : ∀ r ∈ revlogs, r.button_chosen ≤ 4)
    (hgrad : ∃ e ∈ revlogs, isGraduation e = true) :
    ∃ frp : Arr4, firstRatingProbPass revlogs = .ok frp ∧
      frp.a0 = (cnt 1 (buttons (firstRatingEvents revlogs)) : ℚ) /
        ((firstRatingEvents revlogs).length : ℚ) ∧
      frp.a1 = (cnt 2 (buttons (firstRatingEvents revlogs)) : ℚ) /
        ((firstRatingEvents revlogs).length : ℚ) ∧
      frp.a2 = (cnt 3 (buttons (firstRatingEvents revlogs)) : ℚ) /
        ((firstRatingEvents revlogs).length : ℚ) ∧
      frp.a3 = (cnt 4 (buttons (firstRatingEvents revlogs)) : ℚ) /
        ((firstRatingEvents revlogs).length : ℚ) ∧
      frp.sum = 1 := by
  obtain ⟨e, he, hge⟩ := hgrad
  have hpos : 0 < (firstRatingEvents revlogs).length :=
    firstRatingEvents_length_pos he hge
  have hB := firstButtons_bounds hinv
  have hbounds : ∀ p ∈ ((buttons (firstRatingEvents revlogs)).dedup).map
      (fun (k : Nat) => ((k : Int) - 1,
        (cnt k (buttons (firstRatingEvents revlogs)) : ℚ) /
          (((firstRatingEvents revlogs).length : Nat) : ℚ))),
      0 ≤ p.1 ∧ p.1 < 4 := by
    intro p hp
    obtain ⟨k, hk, hke⟩ := List.mem_map.mp hp
    obtain ⟨hk1, hk4⟩ := hB k (List.mem_dedup.mp hk)
    rw [← hke]
    constructor <;> simp <;> omega
  obtain ⟨arr, harr⟩ := writeAll4_some ⟨0, 0, 0, 0⟩ hbounds
  have hok : firstRatingProbPass revlogs = .ok arr := by
    simp only [firstRatingProbPass]
    rw [if_pos hpos, harr]
  have hnd : ((((buttons (firstRatingEvents revlogs)).dedup).map
      (fun (k : Nat) => ((k : Int) - 1,
        (cnt k (buttons (firstRatingEvents revlogs)) : ℚ) /
          (((firstRatingEvents revlogs).length : Nat) : ℚ)))).map Prod.fst).Nodup := by
    rw [List.map_map]
    exact (List.nodup_dedup _).map (fun a b hab => by
      simp only [Function.comp_apply] at hab
      omega)
  have hget : ∀ jn : Nat, jn < 4 → arr.getInt (jn : Int) =
      some ((cnt (jn + 1) (buttons (firstRatingEvents revlogs)) : ℚ) /
        ((firstRatingEvents revlogs).length : ℚ)) := by
    intro jn hj
    by_cases hmemB : (jn + 1) ∈ buttons (firstRatingEvents revlogs)
    · have hmem : ((jn : Int),
          (cnt (jn + 1) (buttons (firstRatingEvents revlogs)) : ℚ) /
            (((firstRatingEvents revlogs).length : Nat) : ℚ)) ∈
          ((buttons (firstRatingEvents revlogs)).dedup).map
            (fun (k : Nat) => ((k : Int) - 1,
              (cnt k (buttons (firstRatingEvents revlogs)) : ℚ) /
                (((firstRatingEvents revlogs).length : Nat) : ℚ))) := by
        refine List.mem_map.mpr ⟨jn + 1, List.mem_dedup.mpr hmemB, ?_⟩
        have : ((jn + 1 : Nat) : Int) - 1 = (jn : Int) := by omega
        rw [this]
      exact writeAll4_getInt_mem harr hnd hmem
    · have hcnt : cnt (jn + 1) (buttons (firstRatingEvents revlogs)) = 0 :=
        cnt_eq_zero_of_not_mem hmemB
      have hno : ∀ p ∈ ((buttons (firstRatingEvents revlogs)).dedup).map
          (fun (k : Nat) => ((k : Int) - 1,
            (cnt k (buttons (firstRatingEvents revlogs)) : ℚ) /
              (((firstRatingEvents revlogs).length : Nat) : ℚ))),
          p.1 ≠ (jn : Int) := by
        intro p hp hpj
        obtain ⟨k, hk, hke⟩ := List.mem_map.mp hp
        have hkB : k ∈ buttons (firstRatingEvents revlogs) := List.mem_dedup.mp hk
        have hp1 : p.1 = (k : Int) - 1 := by rw [← hke]
        have hkj : k = jn + 1 := by rw [hp1] at hpj; omega
        exact hmemB (hkj ▸ hkB)
      rw [writeAll4_getInt_not_mem harr hno, hcnt]
      unfold Arr4.getInt
      split_ifs <;> simp_all <;> omega
  have h0 := hget 0 (by omega)
  have h1 := hget 1 (by omega)
  have h2 := hget 2 (by omega)
  have h3 := hget 3 (by omega)
  have hg0 : arr.getInt ((0 : Nat) : Int) = some arr.a0 := rfl
  have hg1 : arr.getInt ((1 : Nat) : Int) = some arr.a1 := rfl
  have hg2 : arr.getInt ((2 : Nat) : Int) = some arr.a2 := rfl
  have hg3 : arr.getInt ((3 : Nat) : Int) = some arr.a3 := rfl
  rw [hg0] at h0
  rw [hg1] at h1
  rw [hg2] at h2
  rw [hg3] at h3
  have ha0 := Option.some.inj h0
  have ha1 := Option.some.inj h1
  have ha2 := Option.some.inj h2
  have ha3 := Option.some.inj h3
  refine ⟨arr, hok, ha0, ha1, ha2, ha3, ?_⟩
  have hTne : (((firstRatingEvents revlogs).length : Nat) : ℚ) ≠ 0 := by positivity
  have hsum : cnt 1 (buttons (firstRatingEvents revlogs)) +
      cnt 2 (buttons (firstRatingEvents revlogs)) +
      cnt 3 (buttons (firstRatingEvents revlogs)) +
      cnt 4 (buttons (firstRatingEvents revlogs)) =
      (firstRatingEvents revlogs).length := by
    rw [cnt_sum_one_four hB]
    exact List.length_map _ _
  rw [Arr4.sum, ha0, ha1, ha2, ha3, div_add_div_same, div_add_div_same, div_add_div_same]
  rw [show ((cnt 1 (buttons (firstRatingEvents revlogs)) : ℚ) +
      cnt 2 (buttons (firstRatingEvents revlogs)) +
      cnt 3 (buttons (firstRatingEvents revlogs)) +
      cnt 4 (buttons (firstRatingEvents revlogs))) =
      (((firstRatingEvents revlogs).length : Nat) : ℚ) by push_cast [← hsum]; ring]
  exact div_self hTne

theorem reviewButtons_bounds {revlogs : List RevlogEntry}
    (hinv : ∀ r ∈ revlogs, r.button_chosen ≤ 4) :
    ∀ x ∈ buttons (revlogs.filter isNonAgainReview), x ≤ 4 := by
  intro x hx
  obtain ⟨r, hr, hrx⟩ := List.mem_map.mp hx
  exact hrx ▸ hinv r (List.mem_filter.mp hr).1

theorem reviewRatingProbPass_ok {revlogs : List RevlogEntry}
    (hinv : ∀ r ∈ revlogs, r.button_chosen ≤ 4)
    (hex : ∃ e ∈ revlogs, isNonAgainReview e = true) :
    ∃ rrp : Arr3, reviewRatingProbPass revlogs = .ok rrp ∧
      rrp.b0 = (cnt 2 (buttons (revlogs.filter isNonAgainReview)) : ℚ) /
        ((revlogs.filter isNonAgainReview).length : ℚ) ∧
      rrp.b1 = (cnt 3 (buttons (revlogs.filter isNonAgainReview)) : ℚ) /
        ((revlogs.filter isNonAgainReview).length : ℚ) ∧
      rrp.b2 = (cnt 4 (buttons (revlogs.filter isNonAgainReview)) : ℚ) /
        ((revlogs.filter isNonAgainReview).length : ℚ) := by
  obtain ⟨e, he, hne⟩ := hex
  have hpos : 0 < (revlogs.filter isNonAgainReview).length :=
    List.length_pos.mpr (List.ne_nil_of_mem (List.mem_filter.mpr ⟨he, hne⟩))
  have hB := reviewButtons_bounds hinv
  have hbounds : ∀ p ∈ ((((buttons (revlogs.filter isNonAgainReview)).dedup).filter
      (fun k => decide (2 ≤ k))).map
      (fun (k : Nat) => ((k : Int) - 2,
        (cnt k (buttons (revlogs.filter isNonAgainReview)) : ℚ) /
          ((((revlogs.filter isNonAgainReview)).length : Nat) : ℚ)))),
      0 ≤ p.1 ∧ p.1 < 3 := by
    intro p hp
    obtain ⟨k, hk, hke⟩ := List.mem_map.mp hp
    obtain ⟨hkd, hk2⟩ := List.mem_filter.mp hk
    have hk4 : k ≤ 4 := hB k (List.mem_dedup.mp hkd)
    have hk2n : 2 ≤ k := by simpa using hk2
    rw [← hke]
    constructor <;> simp <;> omega
  obtain ⟨arr, harr⟩ := writeAll3_some ⟨0, 0, 0⟩ hbounds
  have hok : reviewRatingProbPass revlogs = .ok arr := by
    simp only [reviewRatingProbPass]
    rw [if_pos hpos, harr]
  have hnd : (((((buttons (revlogs.filter isNonAgainReview)).dedup).filter
      (fun k => decide (2 ≤ k))).map
      (fun (k : Nat) => ((k : Int) - 2,
        (cnt k (buttons (revlogs.filter isNonAgainReview)) : ℚ) /
          ((((revlogs.filter isNonAgainReview)).length : Nat) : ℚ)))).map Prod.fst).Nodup := by
    rw [List.map_map]
    exact ((List.nodup_dedup _).filter _).map (fun a b hab => by
      simp only [Function.comp_apply] at hab
      omega)
  have hget : ∀ jn : Nat, jn < 3 → arr.getInt (jn : Int) =
      some ((cnt (jn + 2) (buttons (revlogs.filter isNonAgainReview)) : ℚ) /
        ((revlogs.filter isNonAgainReview).length : ℚ)) := by
    intro jn hj
    by_cases hmemB : (jn + 2) ∈ buttons (revlogs.filter isNonAgainReview)
    · have hkf : (jn + 2) ∈ ((buttons (revlogs.filter isNonAgainReview)).dedup).filter
          (fun k => decide (2 ≤ k)) :=
        List.mem_filter.mpr ⟨List.mem_dedup.mpr hmemB, by simp⟩
      have hmem : ((jn : Int),
          (cnt (jn + 2) (buttons (revlogs.filter isNonAgainReview)) : ℚ) /
            ((((revlogs.filter isNonAgainReview)).length : Nat) : ℚ)) ∈
          ((((buttons (revlogs.filter isNonAgainReview)).dedup).filter
            (fun k => decide (2 ≤ k))).map
            (fun (k : Nat) => ((k : Int) - 2,
              (cnt k (buttons (revlogs.filter isNonAgainReview)) : ℚ) /
                ((((revlogs.filter isNonAgainReview)).length : Nat) : ℚ)))) := by
        refine List.mem_map.mpr ⟨jn + 2, hkf, ?_⟩
        have : ((jn + 2 : Nat) : Int) - 2 = (jn : Int) := by omega
        rw [this]
      exact writeAll3_getInt_mem harr hnd hmem
    · have hcnt : cnt (jn + 2) (buttons (revlogs.filter isNonAgainReview)) = 0 :=
        cnt_eq_zero_of_not_mem hmemB
      have hno : ∀ p ∈ ((((buttons (revlogs.filter isNonAgainReview)).dedup).filter
          (fun k => decide (2 ≤ k))).map
          (fun (k : Nat) => ((k : Int) - 2,
            (cnt k (buttons (revlogs.filter isNonAgainReview)) : ℚ) /
              ((((revlogs.filter isNonAgainReview)).length : Nat) : ℚ)))),
          p.1 ≠ (jn : Int) := by
        intro p hp hpj
        obtain ⟨k, hk, hke⟩ := List.mem_map.mp hp
        have hkB : k ∈ buttons (revlogs.filter isNonAgainReview) :=
          List.mem_dedup.mp (List.mem_filter.mp hk).1
        have hp1 : p.1 = (k : Int) - 2 := by rw [← hke]
        have hkj : k = jn + 2 := by rw [hp1] at hpj; omega
        exact hmemB (hkj ▸ hkB)
      rw [writeAll3_getInt_not_mem harr hno, hcnt]
      unfold Arr3.getInt
      split_ifs <;> simp_all <;> omega
  have h0 := hget 0 (by omega)
  have h1 := hget 1 (by omega)
  have h2 := hget 2 (by omega)
  have hg0 : arr.getInt ((0 : Nat) : Int) = some arr.b0 := rfl
  have hg1 : arr.getInt ((1 : Nat) : Int) = some arr.b1 := rfl
  have hg2 : arr.getInt ((2 : Nat) : Int) = some arr.b2 := rfl
  rw [hg0] at h0
  rw [hg1] at h1
  rw [hg2] at h2
  exact ⟨arr, hok, Option.some.inj h0, Option.some.inj h1, Option.some.inj h2⟩

theorem recallCostsPass_ne_default {revlogs : List RevlogEntry} {arr : Arr4}
    (h : recallCostsPass revlogs = .ok arr) : arr ≠ recallCostsDefault := by
  simp only [recallCostsPass] at h
  split at h
  · split_ifs at h with hd
    injection h with hba
    rw [← hba]
    exact hd
  · exact absurd h (by simp)

theorem firstRatingProbPass_cases {revlogs : List RevlogEntry}
    (hinv : ∀ r ∈ revlogs, r.button_chosen ≤ 4) :
    (∃ a, firstRatingProbPass revlogs = .ok a) ∨
      firstRatingProbPass revlogs = .error .FsrsInsufficientData := by
  by_cases hpos : 0 < (firstRatingEvents revlogs).length
  · obtain ⟨e, he⟩ := List.exists_mem_of_ne_nil _ (List.length_pos.mp hpos)
    obtain ⟨he1, he2⟩ := firstRatingEvents_mem he
    obtain ⟨arr, hok, _⟩ := firstRatingProbPass_ok hinv ⟨e, he1, he2⟩
    exact Or.inl ⟨arr, hok⟩
  · right
    simp only [firstRatingProbPass]
    rw [if_neg hpos]

theorem reviewRatingProbPass_cases {revlogs : List RevlogEntry}
    (hinv : ∀ r ∈ revlogs, r.button_chosen ≤ 4) :
    (∃ a, reviewRatingProbPass revlogs = .ok a) ∨
      reviewRatingProbPass revlogs = .error .FsrsInsufficientData := by
  by_cases hpos : 0 < (revlogs.filter isNonAgainReview).length
  · obtain ⟨e, he⟩ := List.exists_mem_of_ne_nil _ (List.length_pos.mp hpos)
    obtain ⟨he1, he2⟩ := List.mem_filter.mp he
    obtain ⟨arr, hok, _⟩ := reviewRatingProbPass_ok hinv ⟨e, he1, he2⟩
    exact Or.inl ⟨arr, hok⟩
  · right
    simp only [reviewRatingProbPass]
    rw [if_neg hpos]

theorem recallCostsPass_cases {revlogs : List RevlogEntry}
    (hinv : ∀ r ∈ revlogs, r.button_chosen ≤ 4) :
    (∃ a, recallCostsPass revlogs = .ok a) ∨
      recallCostsPass revlogs = .error .FsrsInsufficientData := by
  have hbounds : ∀ p ∈ ((buttons (revlogs.filter isRatedReview)).dedup).map
      (fun (k : Nat) => ((k : Int) - 1,
        avgSecs ((revlogs.filter isRatedReview).filter (fun r => r.button_chosen == k)))),
      0 ≤ p.1 ∧ p.1 < 4 := by
    intro p hp
    obtain ⟨k, hk, hke⟩ := List.mem_map.mp hp
    obtain ⟨r, hr, hrk⟩ := List.mem_map.mp (List.mem_dedup.mp hk)
    obtain ⟨hrl, hrp⟩ := List.mem_filter.mp hr
    simp only [isRatedReview, Bool.and_eq_true, decide_eq_true_eq] at hrp
    have h1 : 1 ≤ k := hrk ▸ hrp.2
    have h4 : k ≤ 4 := hrk ▸ hinv r hrl
    rw [← hke]
    constructor <;> simp <;> omega
  obtain ⟨arr, harr⟩ := writeAll4_some recallCostsDefault hbounds
  by_cases hd : arr = recallCostsDefault
  · right
    simp only [recallCostsPass, harr]
    rw [if_pos hd]
  · left
    exact ⟨arr, by simp only [recallCostsPass, harr]; rw [if_neg hd]⟩

theorem learnCostPass_of_pos {revlogs : List RevlogEntry}
    (h : 0 < (firstRatingEvents revlogs).length) :
    learnCostPass revlogs = .ok
      ((((revlogs.filter isGraduation).map (fun r => r.taken_millis)).sum : ℚ) /
        (((firstRatingEvents revlogs).length : Nat) : ℚ) / 1000) := by
  simp only [learnCostPass]
  rw [if_pos h]

theorem learnCostPass_cases (revlogs : List RevlogEntry) :
    (∃ q, learnCostPass revlogs = .ok q) ∨
      learnCostPass revlogs = .error .FsrsInsufficientData := by
  by_cases h : 0 < (firstRatingEvents revlogs).length
  · exact Or.inl ⟨_, learnCostPass_of_pos h⟩
  · right
    simp only [learnCostPass]
    rw [if_neg h]

theorem get_parameters_inversion {revlogs : List RevlogEntry}
    {p : OptimalRetentionParameters}
    (h : get_optimal_retention_parameters revlogs = .ok p) :
    ∃ frp rrp rc lc, firstRatingProbPass revlogs = .ok frp ∧
      reviewRatingProbPass revlogs = .ok rrp ∧
      recallCostsPass revlogs = .ok rc ∧
      learnCostPass revlogs = .ok lc ∧
      p = { recall_secs_hard := rc.a1
            recall_secs_good := rc.a2
            recall_secs_easy := rc.a3
            forget_secs := bucketAvg revlogs RevlogReviewKind.Relearning + rc.a0
            learn_secs := lc
            first_rating_probability_again := frp.a0
            first_rating_probability_hard := frp.a1
            first_rating_probability_good := frp.a2
            first_rating_probability_easy := frp.a3
            review_rating_probability_hard := rrp.b0
            review_rating_probability_good := rrp.b1
            review_rating_probability_easy := rrp.b2 } := by
  unfold get_optimal_retention_parameters at h
  cases h1 : firstRatingProbPass revlogs with
  | error e => rw [h1] at h; simp at h
  | ok frp =>
    rw [h1] at h
    cases h2 : reviewRatingProbPass revlogs with
    | error e => rw [h2] at h; simp at h
    | ok rrp =>
      rw [h2] at h
      cases h3 : recallCostsPass revlogs with
      | error e => rw [h3] at h; simp at h
      | ok rc =>
        rw [h3] at h
        cases h4 : learnCostPass revlogs with
        | error e => rw [h4] at h; simp at h
        | ok lc =>
          rw [h4] at h
          simp only at h
          injection h with hp
          exact ⟨frp, rrp, rc, lc, rfl, rfl, rfl, rfl, hp.symm⟩

theorem get_parameters_cases {revlogs : List RevlogEntry}
    (hinv : ∀ r ∈ revlogs, r.button_chosen ≤ 4) :
    (∃ p, get_optimal_retention_parameters revlogs = .ok p) ∨
      get_optimal_retention_parameters revlogs = .error .FsrsInsufficientData := by
  rcases firstRatingProbPass_cases hinv with ⟨a1, h1⟩ | h1
  · rcases reviewRatingProbPass_cases hinv with ⟨a2, h2⟩ | h2
    · rcases recallCostsPass_cases hinv with ⟨a3, h3⟩ | h3
      · rcases learnCostPass_cases revlogs with ⟨a4, h4⟩ | h4
        · left
          have hok : get_optimal_retention_parameters revlogs = .ok
              { recall_secs_hard := a3.a1
                recall_secs_good := a3.a2
                recall_secs_easy := a3.a3
                forget_secs := bucketAvg revlogs RevlogReviewKind.Relearning + a3.a0
                learn_secs := a4
                first_rating_probability_again := a1.a0
                first_rating_probability_hard := a1.a1
                first_rating_probability_good := a1.a2
                first_rating_probability_easy := a1.a3
                review_rating_probability_hard := a2.b0
                review_rating_probability_good := a2.b1
                review_rating_probability_easy := a2.b2 } := by
            simp only [get_optimal_retention_parameters, h1, h2, h3, h4]
          exact ⟨_, hok⟩
        · right
          simp only [get_optimal_retention_parameters, h1, h2, h3, h4]
      · right
        simp only [get_optimal_retention_parameters, h1, h2, h3]
    · right
      simp only [get_optimal_retention_parameters, h1, h2]
  · right
    simp only [get_optimal_retention_parameters, h1]

/-- Worked scenario of C1: ten cards, one Learning-phase graduation event
each, two rated Hard (2) and eight rated Good (3). -/
def exC1 : List RevlogEntry :=
  [⟨1, 1, .Learning, 2, 1000⟩, ⟨2, 1, .Learning, 2, 1000⟩,
   ⟨3, 1, .Learning, 3, 1000⟩, ⟨4, 1, .Learning, 3, 1000⟩,
   ⟨5, 1, .Learning, 3, 1000⟩, ⟨6, 1, .Learning, 3, 1000⟩,
   ⟨7, 1, .Learning, 3, 1000⟩, ⟨8, 1, .Learning, 3, 1000⟩,
   ⟨9, 1, .Learning, 3, 1000⟩, ⟨10, 1, .Learning, 3, 1000⟩]

/-- C1: for every event sequence that respects the rating invariant and
contains at least one graduation event (a first Learning-phase event with
rating >= 1 within a card's group), the first-rating probability vector
holds, at slot rating - 1, the count of cards whose first graduation event
has that rating divided by the total number of such cards, its four
entries sum exactly to 1, and whenever the full estimator succeeds the four
first-rating fields of the returned bundle also sum to 1. -/
theorem C1_first_rating_probability_sums_to_one (revlogs : List RevlogEntry)
    (hinv : ∀ r ∈ revlogs, r.button_chosen ≤ 4)
    (hgrad : ∃ e ∈ revlogs, isGraduation e = true) :
    ∃ frp : Arr4, firstRatingProbPass revlogs = .ok frp ∧
      frp.a0 = (cnt 1 (buttons (firstRatingEvents revlogs)) : ℚ) /
        ((firstRatingEvents revlogs).length : ℚ) ∧
      frp.a1 = (cnt 2 (buttons (firstRatingEvents revlogs)) : ℚ) /
        ((firstRatingEvents revlogs).length : ℚ) ∧
      frp.a2 = (cnt 3 (buttons (firstRatingEvents revlogs)) : ℚ) /
        ((firstRatingEvents revlogs).length : ℚ) ∧
      frp.a3 = (cnt 4 (buttons (firstRatingEvents revlogs)) : ℚ) /
        ((firstRatingEvents revlogs).length : ℚ) ∧
      frp.sum = 1 ∧
      ∀ p, get_optimal_retention_parameters revlogs = .ok p →
        p.first_rating_probability_again + p.first_rating_probability_hard +
          p.first_rating_probability_good + p.first_rating_probability_easy = 1 := by
  obtain ⟨frp, hok, h1, h2, h3, h4, hsum⟩ := firstRatingProbPass_ok hinv hgrad
  refine ⟨frp, hok, h1, h2, h3, h4, hsum, ?_⟩
  intro p hp
  obtain ⟨frp2, rrp, rc, lc, hf2, _, _, _, hpe⟩ := get_parameters_inversion hp
  have hfe : frp2 = frp := Except.ok.inj (hf2.symm.trans hok)
  rw [hpe, hfe]
  exact hsum

/-- Witness for C1: on the worked ten-card scenario the first-rating
probabilities are [0, 0.2, 0.8, 0] and they sum to 1. -/
theorem C1_witness :
    firstRatingProbPass exC1 = .ok ⟨0, 1/5, 4/5, 0⟩ ∧
      ((0 : ℚ) + 1/5 + 4/5 + 0 = 1) := by
  obtain ⟨frp, hok, h1, h2, h3, h4, hsum, hb⟩ :=
    C1_first_rating_probability_sums_to_one exC1 (by decide) (by decide)
  have hv : firstRatingProbPass exC1 = .ok ⟨0, 1/5, 4/5, 0⟩ := by
    with_unfolding_all decide
  refine ⟨hv, ?_⟩
  have hfe : frp = ⟨0, 1/5, 4/5, 0⟩ := Except.ok.inj (hok.symm.trans hv)
  rw [hfe] at hsum
  exact hsum

/-- Event log used by the C2 witness: one graduated card with one Again
and one Good review. -/
def exC2 : List RevlogEntry :=
  [⟨1, 1, .Learning, 3, 1000⟩, ⟨1, 2, .Review, 1, 5000⟩, ⟨1, 3, .Review, 3, 2000⟩]

/-- The parameter bundle the estimator computes on exC2. -/
def pC2 : OptimalRetentionParameters := ⟨14, 2, 6, 5, 1, 0, 0, 1, 0, 0, 1, 0⟩

/-- Oracles for the C2 witness: a stub engine returning 0.99. -/
def oC2 : Oracles := ⟨fun _ => exC2, fun _ _ => .ok (99/100)⟩

/-- Request for the C2 witness, with a non-zero horizon. -/
def reqC2 : ComputeOptimalRetentionRequest := ⟨100, 30, 30, 365, 1, [], ""⟩

/-- C2: whenever the horizon is non-zero, the estimator succeeds and the
engine returns a raw estimate r, compute_optimal_retention returns r
clamped to the closed interval [0.75, 0.95]: the result is
min (max r 0.75) 0.95, it always lies in the interval, and it equals r
unchanged when r already lies in the interval. -/
theorem C2_optimal_retention_clamped (o : Oracles) (req : ComputeOptimalRetentionRequest)
    (p : OptimalRetentionParameters) (r : ℚ)
    (hdays : req.days_to_simulate ≠ 0)
    (hest : get_optimal_retention_parameters (o.searchRevlogs req.search) = .ok p)
    (heng : o.optimalRetention (buildSimulatorConfig req p) req.weights = .ok r) :
    (compute_optimal_retention o req).1 = .ok (min (max r (0.75 : ℚ)) (0.95 : ℚ)) ∧
      (0.75 : ℚ) ≤ min (max r (0.75 : ℚ)) (0.95 : ℚ) ∧
      min (max r (0.75 : ℚ)) (0.95 : ℚ) ≤ (0.95 : ℚ) ∧
      ((0.75 : ℚ) ≤ r → r ≤ (0.95 : ℚ) →
        min (max r (0.75 : ℚ)) (0.95 : ℚ) = r) := by
  refine ⟨?_, ?_, ?_, ?_⟩
  · simp only [compute_optimal_retention, if_neg hdays, hest, heng]
  · exact le_min (le_max_right _ _) (by norm_num)
  · exact min_le_right _ _
  · intro hlo hhi
    rw [max_eq_left hlo]
    exact min_eq_left hhi

/-- Witness for C2: with a stub engine returning 0.99 the operation
returns 0.95. -/
theorem C2_witness : (compute_optimal_retention oC2 reqC2).1 = .ok (0.95 : ℚ) := by
  have h := C2_optimal_retention_clamped oC2 reqC2 pC2 (99/100)
    (by decide) (by with_unfolding_all decide) rfl
  rw [h.1]
  have hm : min (max (99/100 : ℚ) (0.75 : ℚ)) (0.95 : ℚ) = (0.95 : ℚ) := by
    rw [max_eq_left (by norm_num), min_eq_right (by norm_num)]
  rw [hm]

/-- Counterexample log for C3: one Review event with rating 0 and one with
rating 3. -/
def exC3 : List RevlogEntry := [⟨1, 1, .Review, 0, 1000⟩, ⟨1, 2, .Review, 3, 1000⟩]

/-- The rating-3 Review event of exC3. -/
def eC3 : RevlogEntry := ⟨1, 2, .Review, 3, 1000⟩

/-- Counterexample to C3 as stated: exC3 contains a Review event with
rating != 1, one of them has rating >= 2, yet the three entries of the
review-rating probability vector sum to 1/2, not 1, because the rating-0
Review event is counted in the denominator but written to no slot. -/
theorem C3_counterexample :
    eC3 ∈ exC3 ∧ isNonAgainReview eC3 = true ∧ 2 ≤ eC3.button_chosen ∧
      reviewRatingProbPass exC3 = .ok ⟨0, 1/2, 0⟩ ∧
      Arr3.sum ⟨0, 1/2, 0⟩ ≠ 1 := by
  refine ⟨by decide, by decide, by decide, by with_unfolding_all decide, ?_⟩
  rw [Arr3.sum]
  norm_num

/-- C3 (amended): for every event sequence that respects the rating
invariant, contains at least one Review event with rating != 1 and in
which every such event has rating >= 2 (no rating-0 Review events), the
three entries of the review-rating probability vector sum exactly to 1. -/
theorem C3_review_rating_probability_sums_to_one (revlogs : List RevlogEntry)
    (hinv : ∀ r ∈ revlogs, r.button_chosen ≤ 4)
    (hno0 : ∀ r ∈ revlogs, isNonAgainReview r = true → 2 ≤ r.button_chosen)
    (hex : ∃ e ∈ revlogs, isNonAgainReview e = true) :
    ∃ rrp : Arr3, reviewRatingProbPass revlogs = .ok rrp ∧
      rrp.b0 + rrp.b1 + rrp.b2 = 1 := by
  obtain ⟨rrp, hok, h0, h1, h2⟩ := reviewRatingProbPass_ok hinv hex
  refine ⟨rrp, hok, ?_⟩
  have hB : ∀ x ∈ buttons (revlogs.filter isNonAgainReview), 2 ≤ x ∧ x ≤ 4 := by
    intro x hx
    obtain ⟨r, hr, hrx⟩ := List.mem_map.mp hx
    obtain ⟨hrl, hrp⟩ := List.mem_filter.mp hr
    exact ⟨hrx ▸ hno0 r hrl hrp, hrx ▸ hinv r hrl⟩
  have hpos : 0 < (revlogs.filter isNonAgainReview).length := by
    obtain ⟨e, he, hne⟩ := hex
    exact List.length_pos.mpr (List.ne_nil_of_mem (List.mem_filter.mpr ⟨he, hne⟩))
  have hTne : (((revlogs.filter isNonAgainReview).length : Nat) : ℚ) ≠ 0 := by positivity
  have hsum : cnt 2 (buttons (revlogs.filter isNonAgainReview)) +
      cnt 3 (buttons (revlogs.filter isNonAgainReview)) +
      cnt 4 (buttons (revlogs.filter isNonAgainReview)) =
      (revlogs.filter isNonAgainReview).length := by
    rw [cnt_sum_two_four hB]
    exact List.length_map _ _
  rw [h0, h1, h2, div_add_div_same, div_add_div_same]
  rw [show ((cnt 2 (buttons (revlogs.filter isNonAgainReview)) : ℚ) +
      cnt 3 (buttons (revlogs.filter isNonAgainReview)) +
      cnt 4 (buttons (revlogs.filter isNonAgainReview))) =
      (((revlogs.filter isNonAgainReview).length : Nat) : ℚ) by push_cast [← hsum]; ring]
  exact div_self hTne

/-- Log for the C3 witness: one Hard and one Good review. -/
def exC3w : List RevlogEntry := [⟨1, 1, .Review, 2, 1000⟩, ⟨1, 2, .Review, 3, 1000⟩]

/-- Witness for the amended C3: with one Hard and one Good review the
vector is [1/2, 1/2, 0] and sums to 1. -/
theorem C3_witness :
    reviewRatingProbPass exC3w = .ok ⟨1/2, 1/2, 0⟩ ∧
      ((1 : ℚ)/2 + 1/2 + 0 = 1) := by
  obtain ⟨rrp, hok, hsum⟩ :=
    C3_review_rating_probability_sums_to_one exC3w (by decide) (by decide) (by decide)
  have hv : reviewRatingProbPass exC3w = .ok ⟨1/2, 1/2, 0⟩ := by
    with_unfolding_all decide
  refine ⟨hv, ?_⟩
  have hre : rrp = ⟨1/2, 1/2, 0⟩ := Except.ok.inj (hok.symm.trans hv)
  rw [hre] at hsum
  exact hsum

/-- Counterexample log for C4: one Again (rating 1) and one Good
(rating 3) Review event. -/
def exC4 : List RevlogEntry := [⟨1, 1, .Review, 1, 1000⟩, ⟨1, 2, .Review, 3, 1000⟩]

/-- Counterexample to C4 as stated: on exC4 the Good entry of the vector
is 1, while the value the claim predicts — count(3) divided by a total
that includes the rating-1 Review event — is 1/2.  Rating-1 events are in
fact excluded from the denominator by the button_chosen != 1 filter. -/
theorem C4_counterexample :
    reviewRatingProbPass exC4 = .ok ⟨0, 1, 0⟩ ∧
      (cnt 3 (buttons (exC4.filter
          (fun r => r.review_kind == RevlogReviewKind.Review))) : ℚ) /
        ((exC4.filter (fun r => r.review_kind == RevlogReviewKind.Review)).length : ℚ)
        = 1/2 ∧
      (1 : ℚ) ≠ 1/2 := by
  refine ⟨by with_unfolding_all decide, by with_unfolding_all decide, by norm_num⟩

/-- C4 (amended): in the review-rating computation the denominator counts
exactly the Review events with rating != 1 — rating-0 events included,
rating-1 events excluded entirely (their count among the kept events is
0) — and each slot holds count(rating) divided by that total. -/
theorem C4_review_rating_probability_entries (revlogs : List RevlogEntry)
    (hinv : ∀ r ∈ revlogs, r.button_chosen ≤ 4)
    (hex : ∃ e ∈ revlogs, isNonAgainReview e = true) :
    ∃ rrp : Arr3, reviewRatingProbPass revlogs = .ok rrp ∧
      rrp.b0 = (cnt 2 (buttons (revlogs.filter isNonAgainReview)) : ℚ) /
        ((revlogs.filter isNonAgainReview).length : ℚ) ∧
      rrp.b1 = (cnt 3 (buttons (revlogs.filter isNonAgainReview)) : ℚ) /
        ((revlogs.filter isNonAgainReview).length : ℚ) ∧
      rrp.b2 = (cnt 4 (buttons (revlogs.filter isNonAgainReview)) : ℚ) /
        ((revlogs.filter isNonAgainReview).length : ℚ) ∧
      cnt 1 (buttons (revlogs.filter isNonAgainReview)) = 0 := by
  obtain ⟨rrp, hok, h0, h1, h2⟩ := reviewRatingProbPass_ok hinv hex
  refine ⟨rrp, hok, h0, h1, h2, ?_⟩
  have hnot : (1 : Nat) ∉ buttons (revlogs.filter isNonAgainReview) := by
    intro hmem
    obtain ⟨r, hr, hrx⟩ := List.mem_map.mp hmem
    have hrp := (List.mem_filter.mp hr).2
    simp only [isNonAgainReview, Bool.and_eq_true, bne_iff_ne] at hrp
    exact hrp.2 hrx
  exact cnt_eq_zero_of_not_mem hnot

/-- Witness for the amended C4: on exC4 the kept Review events are just
the rating-3 one, so the vector is [0, 1, 0] and no rating-1 event is
counted. -/
theorem C4_witness :
    reviewRatingProbPass exC4 = .ok ⟨0, 1, 0⟩ ∧
      cnt 1 (buttons (exC4.filter isNonAgainReview)) = 0 ∧
      (exC4.filter isNonAgainReview).length = 1 := by
  obtain ⟨rrp, hok, h0, h1, h2, hc1⟩ :=
    C4_review_rating_probability_entries exC4 (by decide) (by decide)
  exact ⟨by with_unfolding_all decide, hc1, by decide⟩

/-- Counterexample log for C5: a graduated card with one Again and one
Good review, so the Hard and Easy recall slots receive no data. -/
def exC5 : List RevlogEntry :=
  [⟨1, 1, .Learning, 3, 1000⟩, ⟨1, 2, .Review, 1, 5000⟩, ⟨1, 3, .Review, 3, 2000⟩]

/-- The bundle the estimator returns on exC5. -/
def pC5 : OptimalRetentionParameters := ⟨14, 2, 6, 5, 1, 0, 0, 1, 0, 0, 1, 0⟩

/-- Counterexample to C5 as stated: on exC5 the estimator succeeds and the
returned bundle carries the untouched default value 14.0 in its Hard
recall-cost slot even though the log contains no rating-2 Review event —
a defaulted slot is returned in place of missing data. -/
theorem C5_counterexample :
    get_optimal_retention_parameters exC5 = .ok pC5 ∧
      pC5.recall_secs_hard = recallCostsDefault.a1 ∧
      exC5.filter (fun r => r.review_kind == RevlogReviewKind.Review &&
        r.button_chosen == 2) = [] := by
  exact ⟨by with_unfolding_all decide, rfl, rfl⟩

/-- C5 (amended): the seeded default recall array acts as a sentinel only
for the all-default case: a successfully returned recall array is never
equal to the default array as a whole, and when no rated Review event
exists at all the pass fails with InsufficientData; individual untouched
slots, however, keep their default values. -/
theorem C5_recall_costs_sentinel (revlogs : List RevlogEntry) :
    (∀ arr, recallCostsPass revlogs = .ok arr → arr ≠ recallCostsDefault) ∧
      (revlogs.filter isRatedReview = [] →
        recallCostsPass revlogs = .error .FsrsInsufficientData) := by
  constructor
  · intro arr h
    exact recallCostsPass_ne_default h
  · intro hfil
    simp [recallCostsPass, hfil, buttons, writeAll4]

/-- Witness for the amended C5: on exC5 the recall pass returns
[5, 14, 2, 6], which differs from the default array. -/
theorem C5_witness :
    recallCostsPass exC5 = .ok ⟨5, 14, 2, 6⟩ ∧
      (⟨5, 14, 2, 6⟩ : Arr4) ≠ recallCostsDefault := by
  have hv : recallCostsPass exC5 = .ok ⟨5, 14, 2, 6⟩ := by with_unfolding_all decide
  exact ⟨hv, (C5_recall_costs_sentinel exC5).1 _ hv⟩

/-- Counterexample log for C6: one card with two Learning-phase graduation
attempts of 1000 ms and 3000 ms. -/
def exC6 : List RevlogEntry :=
  [⟨1, 1, .Learning, 3, 1000⟩, ⟨1, 2, .Learning, 3, 3000⟩]

/-- Counterexample to C6 as stated: on exC6 learn_cost is 4.0 seconds —
the sum over all Learning events with rating >= 1 divided by the single
counted card — while the arithmetic mean over exactly the per-card first
graduation events is 1.0 second. -/
theorem C6_counterexample :
    learnCostPass exC6 = .ok 4 ∧
      avgSecs (firstRatingEvents exC6) = 1 ∧
      (4 : ℚ) ≠ 1 := by
  refine ⟨by with_unfolding_all decide, by with_unfolding_all decide, by norm_num⟩

/-- C6 (amended): when at least one card has a graduation event,
learn_cost equals the sum of duration_ms over all Learning-phase events
with rating >= 1 — not only the per-card first ones — divided by
total_first and converted to seconds. -/
theorem C6_learn_cost_over_all_learning_events (revlogs : List RevlogEntry)
    (h : 0 < (firstRatingEvents revlogs).length) :
    learnCostPass revlogs = .ok
      ((((revlogs.filter isGraduation).map (fun r => r.taken_millis)).sum : ℚ) /
        (((firstRatingEvents revlogs).length : Nat) : ℚ) / 1000) :=
  learnCostPass_of_pos h

/-- Witness for the amended C6: on exC6 the learn cost is
(1000 + 3000) / 1 / 1000 = 4 seconds. -/
theorem C6_witness : learnCostPass exC6 = .ok 4 := by
  have h := C6_learn_cost_over_all_learning_events exC6 (by with_unfolding_all decide)
  rw [h]
  with_unfolding_all decide

/-- Log for the C7 witness: a graduated card with an Again review of
10000 ms, a Good review, and a single Relearning run of 6000 ms. -/
def exC7 : List RevlogEntry :=
  [⟨1, 1, .Learning, 3, 1000⟩, ⟨1, 2, .Review, 1, 10000⟩,
   ⟨1, 3, .Review, 3, 2000⟩, ⟨1, 4, .Relearning, 3, 6000⟩]

/-- The bundle the estimator returns on exC7. -/
def pC7 : OptimalRetentionParameters := ⟨14, 2, 6, 16, 1, 0, 0, 1, 0, 0, 1, 0⟩

/-- C7: whenever the estimator succeeds, forget_secs of the returned
bundle equals the average of the per-run duration sums of the Relearning
bucket (runs being maximal consecutive stretches of equal phase in
cid-then-id order, an empty bucket contributing 0) plus the Again
recall-cost slot recall_costs[0]. -/
theorem C7_forget_cost_relearning_plus_again (revlogs : List RevlogEntry)
    (p : OptimalRetentionParameters)
    (h : get_optimal_retention_parameters revlogs = .ok p) :
    ∃ rc, recallCostsPass revlogs = .ok rc ∧
      p.forget_secs = bucketAvg revlogs RevlogReviewKind.Relearning + rc.a0 := by
  obtain ⟨frp, rrp, rc, lc, _, _, h3, _, hpe⟩ := get_parameters_inversion h
  exact ⟨rc, h3, by rw [hpe]⟩

/-- Witness for C7: on exC7 the single Relearning run totals 6000 ms, the
Again recall cost is 10 seconds, and forget_secs = 6 + 10 = 16. -/
theorem C7_witness :
    get_optimal_retention_parameters exC7 = .ok pC7 ∧
      bucketAvg exC7 RevlogReviewKind.Relearning = 6 ∧
      pC7.forget_secs = 16 := by
  have hv : get_optimal_retention_parameters exC7 = .ok pC7 := by
    with_unfolding_all decide
  obtain ⟨rc, hrc, hfs⟩ := C7_forget_cost_relearning_plus_again exC7 pC7 hv
  have hrcv : recallCostsPass exC7 = .ok ⟨10, 14, 2, 6⟩ := by with_unfolding_all decide
  have hb : bucketAvg exC7 RevlogReviewKind.Relearning = 6 := by with_unfolding_all decide
  refine ⟨hv, hb, ?_⟩
  rw [hfs, hb]
  have hre : rc = ⟨10, 14, 2, 6⟩ := Except.ok.inj (hrc.symm.trans hrcv)
  rw [hre]
  norm_num

/-- Oracles for the C8 witness. -/
def oC8 : Oracles := ⟨fun _ => [], fun _ _ => .ok 1⟩

/-- Request with a zero horizon for the C8 witness. -/
def reqC8 : ComputeOptimalRetentionRequest := ⟨100, 0, 30, 365, 1, [], ""⟩

/-- C8: for every request with days_to_simulate = 0 and any collaborators,
compute_optimal_retention fails with InvalidInput having invoked neither
the parameter estimator nor the simulation engine (both call counters are
zero). -/
theorem C8_zero_days_invalid_input_no_engine (o : Oracles)
    (req : ComputeOptimalRetentionRequest) (h : req.days_to_simulate = 0) :
    compute_optimal_retention o req = (.error .InvalidInput, ⟨0, 0⟩) := by
  simp only [compute_optimal_retention, if_pos h]

/-- Witness for C8: a concrete zero-horizon request yields InvalidInput
with zero estimator and engine invocations. -/
theorem C8_witness :
    compute_optimal_retention oC8 reqC8 = (.error .InvalidInput, ⟨0, 0⟩) :=
  C8_zero_days_invalid_input_no_engine oC8 reqC8 rfl

/-- Log for the C9 witness: a single Review event, so no graduation
event exists. -/
def exC9 : List RevlogEntry := [⟨1, 1, .Review, 3, 1000⟩]

/-- C9: for every event sequence in which no event is a Learning-phase
event with rating >= 1, the estimator fails with InsufficientData. -/
theorem C9_no_graduation_insufficient_data (revlogs : List RevlogEntry)
    (h : ∀ r ∈ revlogs, isGraduation r = false) :
    get_optimal_retention_parameters revlogs = .error .FsrsInsufficientData := by
  have hempty : firstRatingEvents revlogs = [] := by
    rw [firstRatingEvents, List.filterMap_eq_nil]
    intro g hg
    rw [List.find?_eq_none]
    intro x hx
    simp [h x (mem_of_mem_runsBy hg hx)]
  have h1 : firstRatingProbPass revlogs = .error .FsrsInsufficientData := by
    simp only [firstRatingProbPass]
    rw [if_neg (by simp [hempty])]
  simp only [get_optimal_retention_parameters, h1]

/-- Witness for C9: the single-Review log has no graduation event and the
estimator fails with InsufficientData. -/
theorem C9_witness :
    (∀ r ∈ exC9, isGraduation r = false) ∧
      get_optimal_retention_parameters exC9 = .error .FsrsInsufficientData :=
  ⟨by decide, C9_no_graduation_insufficient_data exC9 (by decide)⟩

/-- Log for the C10 witness. -/
def exC10 : List RevlogEntry :=
  [⟨1, 1, .Learning, 3, 1000⟩, ⟨1, 2, .Review, 1, 5000⟩, ⟨1, 3, .Review, 3, 2000⟩]

/-- C10: under the data-model invariant that every rating lies in 0..=4,
every computed array index of the estimator stays in bounds, so the
estimator totally returns either a parameter bundle or the declared
InsufficientData error and never takes the out-of-bounds (panic)
outcome. -/
theorem C10_no_out_of_bounds (revlogs : List RevlogEntry)
    (hinv : ∀ r ∈ revlogs, r.button_chosen ≤ 4) :
    ((∃ p, get_optimal_retention_parameters revlogs = .ok p) ∨
      get_optimal_retention_parameters revlogs = .error .FsrsInsufficientData) ∧
      get_optimal_retention_parameters revlogs ≠ .error .IndexOutOfBounds := by
  have hc := get_parameters_cases hinv
  refine ⟨hc, ?_⟩
  rcases hc with ⟨p, hp⟩ | hp <;> rw [hp] <;> simp

/-- Witness for C10: a concrete in-invariant log on which the estimator
does not hit the out-of-bounds outcome. -/
theorem C10_witness :
    (∀ r ∈ exC10, r.button_chosen ≤ 4) ∧
      get_optimal_retention_parameters exC10 ≠ .error .IndexOutOfBounds :=
  ⟨by decide, (C10_no_out_of_bounds exC10 (by decide)).2⟩

end Anki
